import Mathlib

/-!
Verification of the speech-disfluency analysis pipeline in
`therapy_sessions/ml_model.py`.

The numeric pipeline is embedded shallowly:
* machine floats are modelled as rationals (`ℚ`);
* `numpy` per-chunk quantities that come out of the signal-processing
  library (the mean RMS energy of each chunk) are abstracted as an
  oracle `energy : ℕ → ℚ` giving the energy of chunk `i`, since their
  internal numerics (FFT/MFCC) are outside the analysed control flow;
* the optional Keras model is a value `Option (ℕ → Option (List ℚ))`:
  given the batch size it either raises (`none`, the `except` branch of
  `_predict_from_model`) or returns the per-chunk probabilities;
* Python dictionaries with optional keys become structures with
  `Option` fields (a `none` field = absent key);
* wall-clock fields (`date`) and decimal string rendering (`"%.1f"`,
  `"%.2f%%"`) are not modelled: reports keep the underlying rational
  values, and the period strings use an abstract rendering `fmtPeriod`.
-/

namespace VerboFix

/-- Python `round(x, 2)` on the stammer rate: round half to even at the
integer level; source: `round(stammer_rate, 2)` in
`_generate_report_from_ranges`. -/
def roundHalfEven (x : ℚ) : ℤ :=
  let f := ⌊x⌋
  let r := x - (f : ℚ)
  if r < 1/2 then f
  else if 1/2 < r then f + 1
  else if f % 2 = 0 then f else f + 1

/-- Rounding to two decimal places, as `round(·, 2)`. -/
def round2 (x : ℚ) : ℚ := (roundHalfEven (x * 100) : ℚ) / 100

/-- `np.percentile(xs, q)` with the default linear interpolation:
on the sorted data `s`, at fractional position `h = q*(n-1)/100`,
linearly interpolate between `s[⌊h⌋]` and the next entry. -/
def percentileLinear (q : ℚ) (xs : List ℚ) : ℚ :=
  let s := List.insertionSort (fun a b : ℚ => a ≤ b) xs
  let n := s.length
  let h : ℚ := q * ((n : ℚ) - 1) / 100
  let lo := (⌊h⌋).toNat
  let frac : ℚ := h - ((⌊h⌋ : ℤ) : ℚ)
  let below := s.getD lo 0
  let above := s.getD (min (lo + 1) (n - 1)) 0
  below + frac * (above - below)

/-- `np.percentile(energies, 25)` used by the heuristic fallback. -/
def percentile25 (xs : List ℚ) : ℚ := percentileLinear 25 xs

/-- `CHUNK_DURATION = 1.0` (seconds). -/
def CHUNK_DURATION : ℚ := 1

/-- `HOP_LENGTH = 128` (samples). -/
def HOP_LENGTH : ℕ := 128

/-- `librosa.load(path, sr=16000)` always resamples to 16 kHz. -/
def TARGET_SR : ℕ := 16000

/-- `chunk_size = int(CHUNK_DURATION * sr)` with `sr = 16000`. -/
def chunk_size : ℕ := 16000

/-- `num_chunks = max(0, (len(y) - chunk_size) // hop_size + 1)`;
Python `//` is floor division, hence `Int.fdiv`. -/
def num_chunks (n : ℕ) : ℕ :=
  (max 0 (Int.fdiv ((n : ℤ) - (chunk_size : ℤ)) (HOP_LENGTH : ℤ) + 1)).toNat

/-- Length of the slice `y[i*hop : i*hop + chunk_size]` of a waveform
with `n` samples. -/
def chunkLen (n i : ℕ) : ℕ := min (i * HOP_LENGTH + chunk_size) n - i * HOP_LENGTH

/-- The recorded per-chunk mean energies: the extraction loop visits
chunks `0 .. num_chunks-1`, skips short slices
(`if len(chunk) != chunk_size: continue`), and appends
`float(np.mean(energy))` — abstracted by the oracle `energy`. -/
def chunk_energies (n : ℕ) (energy : ℕ → ℚ) : List ℚ :=
  ((List.range (num_chunks n)).filter (fun i => chunkLen n i == chunk_size)).map energy

/-- `_predict_from_model(features, keras_model, threshold=0.7)`:
empty output when the model is missing, the batch is empty, or the
invocation raises; otherwise
`bins = [1 if p > threshold else 0 ...]`, `confidences = preds`. -/
def _predict_from_model (nFeatures : ℕ) (kerasModel : Option (ℕ → Option (List ℚ)))
    (thr : ℚ) : List ℕ × List ℚ :=
  match kerasModel with
  | none => ([], [])
  | some m =>
    if nFeatures = 0 then ([], [])
    else
      match m nFeatures with
      | none => ([], [])
      | some preds => (preds.map (fun p => if thr < p then 1 else 0), preds)

/-- `_smooth_preds(pred_bins, confidences, window_size=3)`:
for each `i`, window `pred_bins[max(0, i - ws//2) : min(n, i + ws//2 + 1)]`,
smoothed bin `1` iff `sum(window) > len(window)//2`, confidence copied
from `confidences[i]` (`0.0` when `confidences` is empty). -/
def _smooth_preds (pred_bins : List ℕ) (confidences : List ℚ)
    (window_size : ℕ) : List (ℕ × ℚ) :=
  let n := pred_bins.length
  (List.range n).map (fun i =>
    let start := i - window_size / 2
    let stop := min n (i + window_size / 2 + 1)
    let window := (pred_bins.drop start).take (stop - start)
    let sm : ℕ := if window.length / 2 < window.sum then 1 else 0
    let conf : ℚ := if confidences.isEmpty then 0 else confidences.getD i 0
    (sm, conf))

/-- One time range of consecutive same-label chunks, the dict
`{start, end, label, avg_conf, chunks}` built by `_group_consecutive`
(`stop` is the `"end"` key; `end` is a Lean keyword). -/
structure Range where
  start : ℚ
  stop : ℚ
  label : String
  avg_conf : ℚ
  chunks : List ℕ
deriving DecidableEq

/-- `"Stammered" if current_label == 1 else "Fluent"`. -/
def labelStr (current_label : ℕ) : String :=
  if current_label = 1 then "Stammered" else "Fluent"

/-- Closing the current run in `_group_consecutive`: clamp both time
boundaries with the *start* chunk's offset, average the accumulated
confidences, snapshot the accumulated chunk indices. -/
def mkRange (hop_time cd dur : ℚ) (start_idx : ℕ) (current_label : ℕ)
    (current_conf : List ℚ) (chunk_indices : List ℕ) : Range :=
  { start := min ((start_idx : ℚ) * hop_time) dur
    stop := min ((start_idx : ℚ) * hop_time + cd) dur
    label := labelStr current_label
    avg_conf := if current_conf.length = 0 then 0
                else current_conf.sum / ((current_conf.length : ℕ) : ℚ)
    chunks := chunk_indices }

/-- The `for i in range(1, len(pred_pairs))` loop of `_group_consecutive`,
carrying the loop state `(current_label, current_conf, start_idx,
chunk_indices)`; the trailing `# close last` block is the `[]` case. -/
def groupAux (hop_time cd dur : ℚ) :
    List (ℕ × ℚ) → ℕ → ℕ → List ℚ → ℕ → List ℕ → List Range
  | [], _, current_label, current_conf, start_idx, chunk_indices =>
      [mkRange hop_time cd dur start_idx current_label current_conf chunk_indices]
  | (lab, conf) :: rest, i, current_label, current_conf, start_idx, chunk_indices =>
      if lab = current_label then
        groupAux hop_time cd dur rest (i + 1) current_label
          (current_conf ++ [conf]) start_idx (chunk_indices ++ [i])
      else
        mkRange hop_time cd dur start_idx current_label current_conf chunk_indices ::
          groupAux hop_time cd dur rest (i + 1) lab [conf] i [i]

/-- `_group_consecutive(pred_pairs, sr, hop_length, chunk_duration,
audio_duration)`; `hop_time = hop_length / float(sr)`. -/
def _group_consecutive (pred_pairs : List (ℕ × ℚ)) (sr hop_length chunk_duration
    audio_duration : ℚ) : List Range :=
  match pred_pairs with
  | [] => []
  | (l0, c0) :: rest =>
      groupAux (hop_length / sr) chunk_duration audio_duration rest 1 l0 [c0] 0 [0]

/-- Abstract stand-in for the f-string `f"{start:.1f}-{end:.1f}s"`
(decimal rendering of floats is not modelled). -/
def fmtPeriod (s e : ℚ) : String := toString s ++ "-" ++ toString e ++ "s"

/-- `stammered_chunks`: total member-chunk count of `"Stammered"` ranges. -/
def stammeredChunksOf (ranges : List Range) : ℕ :=
  ((ranges.filter (fun r => r.label == "Stammered")).map (fun r => r.chunks.length)).sum

/-- `fluent_chunks`: total member-chunk count of the other ranges. -/
def fluentChunksOf (ranges : List Range) : ℕ :=
  ((ranges.filter (fun r => !(r.label == "Stammered"))).map (fun r => r.chunks.length)).sum

/-- `stammered_periods`: formatted `"start-end s"` entries of the
`"Stammered"` ranges, in range order. -/
def stammeredPeriodsOf (ranges : List Range) : List String :=
  (ranges.filter (fun r => r.label == "Stammered")).map (fun r => fmtPeriod r.start r.stop)

/-- The `recs_map` lookup table keyed by severity. -/
def recs_map (severity : String) : List String :=
  if severity = "Low" then
    ["Continue practicing fluent speech patterns.",
     "Engage in regular reading aloud exercises."]
  else if severity = "Moderate" then
    ["Practice slow and deliberate speech exercises.",
     "Use breathing techniques to reduce stammering.",
     "Consider consulting a speech therapist."]
  else
    ["Work with a speech therapist for personalized guidance.",
     "Practice pausing techniques during speech.",
     "Use mindfulness exercises to reduce anxiety."]

/-- The `raw_output` debugging dictionary; a `none` field models an
absent key.  `model_conf_mean` can be present with value `None`, hence
`Option (Option ℚ)`. -/
structure RawOutput where
  duration : Option ℚ
  num_chunks : Option ℕ
  chunk_energies_sample : Option (List ℚ)
  model_conf_mean : Option (Option ℚ)
  heuristic_threshold : Option ℚ
deriving DecidableEq

/-- The report dictionary (`date` and the rendered `stammerRate` /
`audioDuration` strings are kept as the underlying rational values;
see the module comment). -/
structure Report where
  stammeredPeriods : List String
  stammeredChunks : ℕ
  fluentChunks : ℕ
  stammer_rate : ℚ
  audioDuration : Option ℚ
  severity : String
  recommendations : List String
  transcription : String
  raw_output : Option RawOutput
deriving DecidableEq

/-- `_generate_report_from_ranges(ranges, total_chunks, audio_duration,
transcription)`. -/
def _generate_report_from_ranges (ranges : List Range) (total_chunks : ℕ)
    (audio_duration : Option ℚ) (transcription : String) : Report :=
  let stammered_chunks := stammeredChunksOf ranges
  let fluent_chunks := fluentChunksOf ranges
  let stammered_periods := stammeredPeriodsOf ranges
  let total := if total_chunks ≠ 0 then total_chunks else stammered_chunks + fluent_chunks
  let stammer_rate : ℚ :=
    if 0 < total then ((stammered_chunks : ℚ) / (total : ℚ)) * 100 else 0
  let stammer_rate_val := round2 stammer_rate
  let severity :=
    if stammer_rate_val < 30 then "Low"
    else if stammer_rate_val ≤ 65 then "Moderate"
    else "High"
  { stammeredPeriods := if stammered_periods.isEmpty then ["None"] else stammered_periods
    stammeredChunks := stammered_chunks
    fluentChunks := fluent_chunks
    stammer_rate := stammer_rate_val
    audioDuration := match audio_duration with
      | none => none
      | some d => if d = 0 then none else some d
    severity := severity
    recommendations := recs_map severity
    transcription := transcription
    raw_output := none }

/-- A successfully decoded waveform: its sample count, and the library
oracle for the mean RMS energy of each chunk. -/
structure LoadedAudio where
  numSamples : ℕ
  energy : ℕ → ℚ

/-- Environment of one `analyze_audio` call: `loaded = none` models
`librosa` missing or `librosa.load` raising (the `y is None` early
exit); `kerasModel` as described in the module comment. -/
structure AnalyzeEnv where
  loaded : Option LoadedAudio
  kerasModel : Option (ℕ → Option (List ℚ))
  transcription : String

/-- The classifier dispatch of `analyze_audio` (lines 277-302): the
model path when a model exists and the feature batch is non-empty,
otherwise the energy-heuristic fallback over the recorded (capped)
energy sample.  Returns `((pred_bins, confidences), model_conf_mean
key, heuristic_threshold key)`. -/
def classifyStage (kerasModel : Option (ℕ → Option (List ℚ))) (nFeatures : ℕ)
    (sample : List ℚ) : (List ℕ × List ℚ) × Option (Option ℚ) × Option ℚ :=
  if kerasModel.isSome ∧ 0 < nFeatures then
    let bc := _predict_from_model nFeatures kerasModel (7/10)
    (bc, some (if bc.2.isEmpty then none
               else some (bc.2.sum / ((bc.2.length : ℕ) : ℚ))), none)
  else
    if sample.isEmpty then (([], []), none, none)
    else
      let thr := percentile25 sample
      ((sample.map (fun e => if e < thr then 1 else 0),
        sample.map (fun e => |e - thr|)), none, some thr)

/-- The minimal fallback report returned on the `y is None` early exit
(lines 212-224).  Note the single-element recommendations list. -/
def minimalReport (transcription : String) : Report :=
  { stammeredPeriods := ["None"]
    stammeredChunks := 0
    fluentChunks := 0
    stammer_rate := 0
    audioDuration := none
    severity := "Low"
    recommendations := ["Continue practicing fluent speech patterns."]
    transcription := transcription
    raw_output := none }

/-- `analyze_audio`: load, extract, classify, smooth, group,
synthesize, then attach `raw_output`.  `duration` is
`librosa.get_duration(y, sr) = len(y)/sr`; the `num_chunks` key is
`features.shape[0]`, i.e. the number of full chunks; the classifier
receives the *capped* sample `chunk_energies[:50]` stored for
debugging; `audio_duration` for grouping is `duration if duration else
0.0`. -/
def analyze_audio (env : AnalyzeEnv) : Report :=
  match env.loaded with
  | none => minimalReport env.transcription
  | some a =>
    let duration : ℚ := (a.numSamples : ℚ) / (TARGET_SR : ℚ)
    let energies := chunk_energies a.numSamples a.energy
    let sample := energies.take 50
    let res := classifyStage env.kerasModel energies.length sample
    let pred_bins := res.1.1
    let confidences := res.1.2
    let smoothed := if pred_bins.isEmpty then [] else _smooth_preds pred_bins confidences 3
    let grouped := _group_consecutive smoothed ((TARGET_SR : ℕ) : ℚ) ((HOP_LENGTH : ℕ) : ℚ)
      CHUNK_DURATION (if duration = 0 then 0 else duration)
    let core := _generate_report_from_ranges grouped energies.length (some duration)
      env.transcription
    let raw : RawOutput :=
      { duration := some duration
        num_chunks := some energies.length
        chunk_energies_sample := some sample
        model_conf_mean := res.2.1
        heuristic_threshold := res.2.2 }
    { core with raw_output := some raw }

/-- The confidence recorded for chunk `j` in a prediction-pair list. -/
def confAt (pairs : List (ℕ × ℚ)) (j : ℕ) : ℚ := (pairs.getD j (0, 0)).2

/-- The member-chunk confidences of a range, read back from the
prediction pairs. -/
def memberConfs (pairs : List (ℕ × ℚ)) (r : Range) : List ℚ :=
  r.chunks.map (confAt pairs)

/-- Boundary contract of the external Keras model (spec 4.3: the model
produces one scalar probability per chunk of the batch). -/
def ModelContract (env : AnalyzeEnv) : Prop :=
  ∀ m k out, env.kerasModel = some m → m k = some out → out.length = k

/-- Environment with no decodable audio: the degraded early-exit path. -/
def envMinimal : AnalyzeEnv := ⟨none, none, ""⟩

/-- Heuristic path with 51 extracted chunks (22400 samples =
16000 + 50·128), all chunk energies 0. -/
def envC1 : AnalyzeEnv := ⟨some ⟨22400, fun _ => 0⟩, none, ""⟩

/-- Model present, one chunk of energy 5, but the model invocation
raises (empty model output). -/
def envC2x : AnalyzeEnv := ⟨some ⟨16000, fun _ => 5⟩, some (fun _ => none), ""⟩

/-- Loaded but empty waveform (zero samples), no model. -/
def envPipe0 : AnalyzeEnv := ⟨some ⟨0, fun _ => 0⟩, none, ""⟩

/-! ## List helper lemmas -/

theorem getD_of_drop {α : Type _} (d : α) :
    ∀ (l : List α) (i : ℕ) (x : α) (xs : List α), l.drop i = x :: xs → l.getD i d = x := by
  intro l
  induction l with
  | nil => intro i x xs h; simp at h
  | cons a t ih =>
    intro i x xs h
    cases i with
    | zero =>
      simp only [List.drop_zero] at h
      rw [List.getD_cons_zero]
      exact (List.cons.injEq _ _ _ _ ▸ h).1
    | succ n =>
      simp only [List.drop_succ_cons] at h
      rw [List.getD_cons_succ]
      exact ih n x xs h

theorem sum_eq_count_one :
    ∀ l : List ℕ, (∀ b ∈ l, b = 0 ∨ b = 1) → l.sum = l.count 1 := by
  intro l
  induction l with
  | nil => intro h; simp
  | cons a t ih =>
    intro h
    have ih' := ih (fun b hb => h b (List.mem_cons_of_mem _ hb))
    rcases h a (List.mem_cons_self _ _) with ha | ha <;> subst ha
    · simp [List.count_cons, ih']
    · simp [List.count_cons, ih', Nat.add_comm]

/-! ## Grouper invariants -/

theorem groupAux_head_label (ht cd dur : ℚ) :
    ∀ (rest : List (ℕ × ℚ)) (i lab : ℕ) (confs : List ℚ) (sIdx : ℕ) (cIdxs : List ℕ),
    ∃ r t, groupAux ht cd dur rest i lab confs sIdx cIdxs = r :: t ∧
      r.label = labelStr lab := by
  intro rest
  induction rest with
  | nil => intro i lab confs sIdx cIdxs; exact ⟨_, _, rfl, rfl⟩
  | cons p rest ih =>
    intro i lab confs sIdx cIdxs
    obtain ⟨l, c⟩ := p
    by_cases hl : l = lab
    · simpa [groupAux, hl] using ih (i + 1) lab (confs ++ [c]) sIdx (cIdxs ++ [i])
    · refine ⟨mkRange ht cd dur sIdx lab confs cIdxs,
        groupAux ht cd dur rest (i + 1) l [c] i [i], ?_, rfl⟩
      simp [groupAux, hl]

theorem groupAux_flatMap (ht cd dur : ℚ) :
    ∀ (rest : List (ℕ × ℚ)) (i lab : ℕ) (confs : List ℚ) (sIdx : ℕ) (cIdxs : List ℕ),
    (groupAux ht cd dur rest i lab confs sIdx cIdxs).flatMap Range.chunks =
      cIdxs ++ List.range' i rest.length := by
  intro rest
  induction rest with
  | nil => intro i lab confs sIdx cIdxs; simp [groupAux, mkRange]
  | cons p rest ih =>
    intro i lab confs sIdx cIdxs
    obtain ⟨l, c⟩ := p
    by_cases hl : l = lab
    · simp [groupAux, hl, ih, List.range'_succ, List.append_assoc]
    · simp [groupAux, hl, ih, mkRange, List.range'_succ, List.append_assoc]

theorem mkRange_spec (pairs : List (ℕ × ℚ)) (ht cd dur : ℚ) (i lab sIdx : ℕ)
    (confs : List ℚ) (cIdxs : List ℕ) (h1 : sIdx < i)
    (h2 : cIdxs = List.range' sIdx (i - sIdx))
    (h4 : confs = cIdxs.map (confAt pairs)) :
    ∃ s k, (mkRange ht cd dur sIdx lab confs cIdxs).chunks = List.range' s (k + 1) ∧
      (mkRange ht cd dur sIdx lab confs cIdxs).start = min ((s : ℚ) * ht) dur ∧
      (mkRange ht cd dur sIdx lab confs cIdxs).stop = min ((s : ℚ) * ht + cd) dur ∧
      (mkRange ht cd dur sIdx lab confs cIdxs).avg_conf =
        (memberConfs pairs (mkRange ht cd dur sIdx lab confs cIdxs)).sum /
          ((memberConfs pairs (mkRange ht cd dur sIdx lab confs cIdxs)).length : ℚ) := by
  have hm : memberConfs pairs (mkRange ht cd dur sIdx lab confs cIdxs) = confs := by
    show cIdxs.map (confAt pairs) = confs
    exact h4.symm
  have hlen : confs.length = i - sIdx := by
    rw [h4, List.length_map, h2, List.length_range']
  refine ⟨sIdx, i - sIdx - 1, ?_, rfl, rfl, ?_⟩
  · show cIdxs = _
    rw [h2]
    congr 1
    omega
  · show (if confs.length = 0 then (0 : ℚ) else confs.sum / ((confs.length : ℕ) : ℚ)) = _
    rw [hm, if_neg (by omega)]

theorem groupAux_ranges (pairs : List (ℕ × ℚ)) (ht cd dur : ℚ) :
    ∀ (rest : List (ℕ × ℚ)) (i lab : ℕ) (confs : List ℚ) (sIdx : ℕ) (cIdxs : List ℕ),
    sIdx < i →
    cIdxs = List.range' sIdx (i - sIdx) →
    rest = pairs.drop i →
    confs = cIdxs.map (confAt pairs) →
    ∀ r ∈ groupAux ht cd dur rest i lab confs sIdx cIdxs,
      ∃ s k, r.chunks = List.range' s (k + 1) ∧
        r.start = min ((s : ℚ) * ht) dur ∧
        r.stop = min ((s : ℚ) * ht + cd) dur ∧
        r.avg_conf = (memberConfs pairs r).sum / ((memberConfs pairs r).length : ℚ) := by
  intro rest
  induction rest with
  | nil =>
    intro i lab confs sIdx cIdxs h1 h2 h3 h4 r hr
    simp only [groupAux, List.mem_singleton] at hr
    subst hr
    exact mkRange_spec pairs ht cd dur i lab sIdx confs cIdxs h1 h2 h4
  | cons p rest ih =>
    intro i lab confs sIdx cIdxs h1 h2 h3 h4 r hr
    obtain ⟨l, c⟩ := p
    have hget : pairs.getD i (0, 0) = (l, c) :=
      getD_of_drop (0, 0) pairs i (l, c) rest h3.symm
    have hdrop : rest = pairs.drop (i + 1) := by
      have : pairs.drop (i + 1) = List.drop 1 (pairs.drop i) := by
        rw [List.drop_drop]
      rw [this, ← h3]
      rfl
    by_cases hl : l = lab
    · have hr' : r ∈ groupAux ht cd dur rest (i + 1) lab (confs ++ [c]) sIdx (cIdxs ++ [i]) := by
        simpa [groupAux, hl] using hr
      have hcAt : confAt pairs i = c := by rw [confAt, hget]
      refine ih (i + 1) lab (confs ++ [c]) sIdx (cIdxs ++ [i]) (by omega) ?_ hdrop ?_ r hr'
      · rw [h2]
        have hsub : i + 1 - sIdx = (i - sIdx) + 1 := by omega
        have h5 : sIdx + 1 * (i - sIdx) = i := by omega
        rw [hsub, List.range'_concat, h5]
      · rw [List.map_append, ← h4]
        simp [hcAt]
    · have hr' : r ∈ mkRange ht cd dur sIdx lab confs cIdxs ::
          groupAux ht cd dur rest (i + 1) l [c] i [i] := by
        simpa [groupAux, hl] using hr
      rcases List.mem_cons.mp hr' with hr0 | hr1
      · subst hr0
        exact mkRange_spec pairs ht cd dur i lab sIdx confs cIdxs h1 h2 h4
      · have hcAt : confAt pairs i = c := by rw [confAt, hget]
        refine ih (i + 1) l [c] i [i] (by omega) (by simp) hdrop ?_ r hr1
        simp [hcAt]

theorem groupAux_chain (ht cd dur : ℚ) :
    ∀ (rest : List (ℕ × ℚ)) (i lab : ℕ) (confs : List ℚ) (sIdx : ℕ) (cIdxs : List ℕ),
    (lab = 0 ∨ lab = 1) → (∀ p ∈ rest, p.1 = 0 ∨ p.1 = 1) →
    List.Chain' (fun a b : Range => a.label ≠ b.label)
      (groupAux ht cd dur rest i lab confs sIdx cIdxs) := by
  intro rest
  induction rest with
  | nil => intro i lab confs sIdx cIdxs _ _; simp [groupAux]
  | cons p rest ih =>
    intro i lab confs sIdx cIdxs hlab hp
    obtain ⟨l, c⟩ := p
    have hl01 : l = 0 ∨ l = 1 := hp (l, c) (List.mem_cons_self _ _)
    have hrest : ∀ q ∈ rest, q.1 = 0 ∨ q.1 = 1 :=
      fun q hq => hp q (List.mem_cons_of_mem _ hq)
    by_cases hl : l = lab
    · simpa [groupAux, hl] using
        ih (i + 1) lab (confs ++ [c]) sIdx (cIdxs ++ [i]) hlab hrest
    · rw [show groupAux ht cd dur ((l, c) :: rest) i lab confs sIdx cIdxs =
          mkRange ht cd dur sIdx lab confs cIdxs ::
            groupAux ht cd dur rest (i + 1) l [c] i [i] from by simp [groupAux, hl]]
      obtain ⟨r0, t0, hrec, hlabel⟩ := groupAux_head_label ht cd dur rest (i + 1) l [c] i [i]
      rw [hrec]
      refine List.chain'_cons.mpr ⟨?_, ?_⟩
      · show labelStr lab ≠ r0.label
        rw [hlabel]
        rcases hlab with h | h <;> rcases hl01 with h' | h' <;> subst h <;> subst h' <;>
          first
          | exact absurd rfl hl
          | decide
      · rw [← hrec]
        exact ih (i + 1) l [c] i [i] hl01 hrest

theorem group_flatMap (pairs : List (ℕ × ℚ)) (sr hop cd dur : ℚ) :
    (_group_consecutive pairs sr hop cd dur).flatMap Range.chunks =
      List.range pairs.length := by
  cases pairs with
  | nil => simp [_group_consecutive]
  | cons p rest =>
    obtain ⟨l0, c0⟩ := p
    show (groupAux (hop / sr) cd dur rest 1 l0 [c0] 0 [0]).flatMap Range.chunks = _
    rw [groupAux_flatMap, List.range_eq_range']
    simp [List.range'_succ]

/-! ## Claim C4 -/

/-- C4: grouping a smoothed sequence of length n and concatenating all
ranges member-chunk-index lists, in range order, yields exactly the
index sequence 0, 1, ..., n-1 (no gaps, overlaps or repeats), and the
empty input yields the empty range list. -/
theorem C4_grouper_partition :
    ∀ (pairs : List (ℕ × ℚ)) (sr hop cd dur : ℚ),
      (_group_consecutive pairs sr hop cd dur).flatMap Range.chunks =
        List.range pairs.length ∧
      _group_consecutive ([] : List (ℕ × ℚ)) sr hop cd dur = [] :=
  fun pairs sr hop cd dur => ⟨group_flatMap pairs sr hop cd dur, rfl⟩

/-! ## Claim C6 -/

/-- C6: every range produced by grouping has
start = min(first_chunk_index * hop_time, audio_duration),
stop = min(first_chunk_index * hop_time + chunk_duration, audio_duration)
with hop_time = hop / sample_rate (the end uses the range first member
chunk offset plus one chunk duration), and avg_conf is the arithmetic
mean of the member chunks confidences. -/
theorem C6_range_time_bounds :
    ∀ (pairs : List (ℕ × ℚ)) (sr hop cd dur : ℚ),
      ∀ r ∈ _group_consecutive pairs sr hop cd dur,
        r.start = min (((r.chunks.headD 0 : ℕ) : ℚ) * (hop / sr)) dur ∧
        r.stop = min (((r.chunks.headD 0 : ℕ) : ℚ) * (hop / sr) + cd) dur ∧
        r.avg_conf = (memberConfs pairs r).sum / ((memberConfs pairs r).length : ℚ) := by
  intro pairs sr hop cd dur r hr
  cases pairs with
  | nil => simp [_group_consecutive] at hr
  | cons p rest =>
    obtain ⟨l0, c0⟩ := p
    have hmem : r ∈ groupAux (hop / sr) cd dur rest 1 l0 [c0] 0 [0] := hr
    obtain ⟨s, k, hc, hs, he, ha⟩ :=
      groupAux_ranges ((l0, c0) :: rest) (hop / sr) cd dur rest 1 l0 [c0] 0 [0]
        (by omega) (by simp) rfl (by simp [confAt]) r hmem
    have hh : r.chunks.headD 0 = s := by
      rw [hc, List.range'_succ]
      rfl
    refine ⟨?_, ?_, ha⟩ <;> rw [hh] <;> assumption

/-! ## Claim C10 -/

/-- C10: for non-empty smoothed input (labels in {0,1}), every produced
range has a non-empty member-chunk list forming a run of consecutive
increasing indices (a List.range' s (k+1) = [s, s+1, ..., s+k]), and
adjacent ranges carry different labels. -/
theorem C10_runs_alternate :
    ∀ (pairs : List (ℕ × ℚ)) (sr hop cd dur : ℚ),
      pairs ≠ [] → (∀ p ∈ pairs, p.1 = 0 ∨ p.1 = 1) →
      (∀ r ∈ _group_consecutive pairs sr hop cd dur,
        r.chunks ≠ [] ∧ ∃ s k, r.chunks = List.range' s (k + 1)) ∧
      List.Chain' (fun a b : Range => a.label ≠ b.label)
        (_group_consecutive pairs sr hop cd dur) := by
  intro pairs sr hop cd dur hne hl
  cases pairs with
  | nil => exact absurd rfl hne
  | cons p rest =>
    obtain ⟨l0, c0⟩ := p
    constructor
    · intro r hr
      have hmem : r ∈ groupAux (hop / sr) cd dur rest 1 l0 [c0] 0 [0] := hr
      obtain ⟨s, k, hc, -, -, -⟩ :=
        groupAux_ranges ((l0, c0) :: rest) (hop / sr) cd dur rest 1 l0 [c0] 0 [0]
          (by omega) (by simp) rfl (by simp [confAt]) r hmem
      refine ⟨?_, s, k, hc⟩
      rw [hc, List.range'_succ]
      simp
    · exact groupAux_chain (hop / sr) cd dur rest 1 l0 [c0] 0 [0]
        (hl (l0, c0) (List.mem_cons_self _ _))
        (fun q hq => hl q (List.mem_cons_of_mem _ hq))

/-- C6 witness: concrete instantiation at the grouping of
[(1, 1/2), (1, 1/3), (0, 1/4)] and its first range. -/
theorem C6_range_time_bounds_witness :
    ((_group_consecutive [(1, 1/2), (1, 1/3), (0, 1/4)] 16000 128 1 10).headD
        ⟨0, 0, "", 0, []⟩).start = 0 ∧
    ((_group_consecutive [(1, 1/2), (1, 1/3), (0, 1/4)] 16000 128 1 10).headD
        ⟨0, 0, "", 0, []⟩).avg_conf = 5 / 12 := by
  have h := C6_range_time_bounds [(1, 1/2), (1, 1/3), (0, 1/4)] 16000 128 1 10
    ((_group_consecutive [(1, 1/2), (1, 1/3), (0, 1/4)] 16000 128 1 10).headD
        ⟨0, 0, "", 0, []⟩) (by with_unfolding_all decide)
  exact ⟨h.1.trans (by with_unfolding_all decide),
    h.2.2.trans (by with_unfolding_all decide)⟩

/-- C10 witness: concrete instantiation at [(1, 1/2), (1, 1/3), (0, 1/4)]. -/
theorem C10_runs_alternate_witness :
    List.Chain' (fun a b : Range => a.label ≠ b.label)
      (_group_consecutive [(1, 1/2), (1, 1/3), (0, 1/4)] 16000 128 1 10) :=
  (C10_runs_alternate [(1, 1/2), (1, 1/3), (0, 1/4)] 16000 128 1 10
    (by with_unfolding_all decide) (by decide)).2

/-! ## Smoother lemmas (C5) -/

theorem smooth_length (pred_bins : List ℕ) (confidences : List ℚ) (ws : ℕ) :
    (_smooth_preds pred_bins confidences ws).length = pred_bins.length := by
  simp [_smooth_preds]

theorem smooth_getD (pred_bins : List ℕ) (confidences : List ℚ) (ws i : ℕ)
    (hi : i < pred_bins.length) :
    (_smooth_preds pred_bins confidences ws).getD i (0, 0) =
      ((if ((pred_bins.drop (i - ws / 2)).take
              (min pred_bins.length (i + ws / 2 + 1) - (i - ws / 2))).length / 2 <
            ((pred_bins.drop (i - ws / 2)).take
              (min pred_bins.length (i + ws / 2 + 1) - (i - ws / 2))).sum
        then (1 : ℕ) else 0),
       (if confidences.isEmpty then (0 : ℚ) else confidences.getD i 0)) := by
  unfold _smooth_preds
  rw [List.getD_eq_getElem?_getD, List.getElem?_map, List.getElem?_range hi]
  rfl

/-! ## Claim C5 -/

/-- C5: smoothing a label sequence of length n yields exactly n pairs;
at index i the smoothed label is 1 iff the count of 1s in the window
labels[max(0,i-1) .. min(n,i+2)) strictly exceeds floor(window_length/2)
(tie favours 0), and the confidence is the original confidences[i]
unchanged, or 0.0 when the confidence sequence is empty. -/
theorem C5_smoother_def :
    ∀ (pred_bins : List ℕ) (confidences : List ℚ),
      (∀ b ∈ pred_bins, b = 0 ∨ b = 1) →
      (confidences = [] ∨ confidences.length = pred_bins.length) →
      (_smooth_preds pred_bins confidences 3).length = pred_bins.length ∧
      ∀ i, i < pred_bins.length →
        ((_smooth_preds pred_bins confidences 3).getD i (0, 0)).1 =
          (if ((pred_bins.drop (i - 1)).take
                (min pred_bins.length (i + 2) - (i - 1))).length / 2 <
              ((pred_bins.drop (i - 1)).take
                (min pred_bins.length (i + 2) - (i - 1))).count 1
           then 1 else 0) ∧
        ((_smooth_preds pred_bins confidences 3).getD i (0, 0)).2 =
          (if confidences = [] then 0 else confidences.getD i 0) := by
  intro pred_bins confidences hb _hc
  refine ⟨smooth_length _ _ _, ?_⟩
  intro i hi
  rw [smooth_getD _ _ _ _ hi]
  have h32 : (3 : ℕ) / 2 = 1 := rfl
  constructor
  · have hW : ∀ b ∈ (pred_bins.drop (i - 1)).take
        (min pred_bins.length (i + 2) - (i - 1)), b = 0 ∨ b = 1 :=
      fun b hbm => hb b (List.mem_of_mem_drop (List.mem_of_mem_take hbm))
    simp only [h32]
    rw [sum_eq_count_one _ hW]
  · simp only []
    by_cases hce : confidences = [] <;> simp [hce]

/-- C5 witness: the smoother at labels [1, 1, 0] with confidences
[1/2, 1/3, 1/4], index 0. -/
theorem C5_smoother_def_witness :
    (_smooth_preds [1, 1, 0] [1/2, 1/3, 1/4] 3).length = 3 ∧
    ((_smooth_preds [1, 1, 0] [1/2, 1/3, 1/4] 3).getD 0 (0, 0)).1 = 1 ∧
    ((_smooth_preds [1, 1, 0] [1/2, 1/3, 1/4] 3).getD 0 (0, 0)).2 = 1/2 := by
  have h := C5_smoother_def [1, 1, 0] [1/2, 1/3, 1/4] (by decide) (Or.inr rfl)
  refine ⟨h.1, ?_, ?_⟩
  · exact ((h.2 0 (by norm_num)).1).trans (by decide)
  · exact ((h.2 0 (by norm_num)).2).trans (by with_unfolding_all decide)

/-! ## Rounding lemmas (C3) -/

theorem le_roundHalfEven (x : ℚ) : ⌊x⌋ ≤ roundHalfEven x := by
  simp only [roundHalfEven]
  split_ifs <;> omega

theorem roundHalfEven_nonneg {x : ℚ} (hx : 0 ≤ x) : 0 ≤ roundHalfEven x := by
  have h0 : (0 : ℤ) ≤ ⌊x⌋ := Int.floor_nonneg.mpr hx
  have h1 := le_roundHalfEven x
  omega

theorem roundHalfEven_le {x : ℚ} {N : ℤ} (h : x ≤ (N : ℚ)) : roundHalfEven x ≤ N := by
  have hf : ⌊x⌋ ≤ N := by
    have h1 := Int.floor_le_floor h
    simpa using h1
  have hfl := Int.floor_le x
  simp only [roundHalfEven]
  split_ifs with h1 h2 h3
  · exact hf
  · have hx2 : (⌊x⌋ : ℚ) + 1/2 < x := by linarith [not_lt.mp h1, h2]
    have hq : (⌊x⌋ : ℚ) < (N : ℚ) := by linarith
    have : ⌊x⌋ < N := by exact_mod_cast hq
    omega
  · exact hf
  · have hr : x - (⌊x⌋ : ℚ) = 1/2 := le_antisymm (not_lt.mp h2) (not_lt.mp h1)
    have hq : (⌊x⌋ : ℚ) < (N : ℚ) := by linarith
    have : ⌊x⌋ < N := by exact_mod_cast hq
    omega

theorem round2_zero : round2 0 = 0 := by with_unfolding_all decide

theorem round2_nonneg {x : ℚ} (hx : 0 ≤ x) : 0 ≤ round2 x := by
  unfold round2
  have h := roundHalfEven_nonneg (x := x * 100) (by positivity)
  have h' : (0 : ℚ) ≤ ((roundHalfEven (x * 100) : ℤ) : ℚ) := by exact_mod_cast h
  positivity

theorem round2_le_100 {x : ℚ} (hx : x ≤ 100) : round2 x ≤ 100 := by
  unfold round2
  have h : roundHalfEven (x * 100) ≤ (10000 : ℤ) := by
    refine roundHalfEven_le ?_
    push_cast
    linarith
  have h' : ((roundHalfEven (x * 100) : ℤ) : ℚ) ≤ 10000 := by exact_mod_cast h
  rw [div_le_iff₀ (by norm_num : (0 : ℚ) < 100)]
  linarith

/-! ## Report accounting lemmas (C3) -/

theorem chunks_count_split (g : List Range) :
    stammeredChunksOf g + fluentChunksOf g = (g.flatMap Range.chunks).length := by
  induction g with
  | nil => simp [stammeredChunksOf, fluentChunksOf]
  | cons r t ih =>
    cases hb : (r.label == "Stammered") <;>
      simp [stammeredChunksOf, fluentChunksOf, List.filter_cons, hb] at ih ⊢ <;>
      omega

theorem predict_len_le (n : ℕ) (km : Option (ℕ → Option (List ℚ))) (thr : ℚ)
    (hmc : ∀ m out, km = some m → m n = some out → out.length = n) :
    (_predict_from_model n km thr).1.length ≤ n := by
  unfold _predict_from_model
  cases km with
  | none => simp
  | some m =>
    split_ifs with h
    · simp
    · cases hout : m n with
      | none => simp [hout]
      | some preds => simp [hout, hmc m preds rfl hout]

theorem classify_bins_le (km : Option (ℕ → Option (List ℚ))) (n : ℕ) (sample : List ℚ)
    (hmc : ∀ m out, km = some m → m n = some out → out.length = n)
    (hs : sample.length ≤ n) :
    (classifyStage km n sample).1.1.length ≤ n := by
  unfold classifyStage
  split_ifs with h1 h2
  · exact predict_len_le n km (7/10) hmc
  · simp
  · simpa using hs

theorem generate_rate_bounds (ranges : List Range) (T : ℕ) (dur : Option ℚ) (tr : String)
    (h : T ≠ 0 → stammeredChunksOf ranges ≤ T) :
    0 ≤ (_generate_report_from_ranges ranges T dur tr).stammer_rate ∧
    (_generate_report_from_ranges ranges T dur tr).stammer_rate ≤ 100 := by
  have hrate : (_generate_report_from_ranges ranges T dur tr).stammer_rate =
      round2 (if 0 < (if T ≠ 0 then T else stammeredChunksOf ranges + fluentChunksOf ranges)
        then ((stammeredChunksOf ranges : ℚ) /
          (((if T ≠ 0 then T else stammeredChunksOf ranges + fluentChunksOf ranges) : ℕ) : ℚ)) * 100
        else 0) := rfl
  rw [hrate]
  have hle : stammeredChunksOf ranges ≤
      (if T ≠ 0 then T else stammeredChunksOf ranges + fluentChunksOf ranges) := by
    split_ifs with ht
    · exact h ht
    · exact Nat.le_add_right _ _
  set T2 := if T ≠ 0 then T else stammeredChunksOf ranges + fluentChunksOf ranges with hT2
  split_ifs with hpos
  · have hT0 : (0 : ℚ) < (T2 : ℚ) := by exact_mod_cast hpos
    have hsq : ((stammeredChunksOf ranges : ℕ) : ℚ) ≤ (T2 : ℚ) := by exact_mod_cast hle
    have h0 : (0 : ℚ) ≤ ((stammeredChunksOf ranges : ℕ) : ℚ) / (T2 : ℚ) * 100 := by positivity
    have hdiv : ((stammeredChunksOf ranges : ℕ) : ℚ) / (T2 : ℚ) ≤ 1 :=
      (div_le_one hT0).mpr hsq
    exact ⟨round2_nonneg h0, round2_le_100 (by linarith)⟩
  · rw [round2_zero]
    norm_num

theorem analyze_loaded_rate (env : AnalyzeEnv) (a : LoadedAudio)
    (henv : env.loaded = some a) (hmc : ModelContract env) :
    ∃ (g : List Range) (T : ℕ) (d : Option ℚ),
      (analyze_audio env).stammer_rate =
        (_generate_report_from_ranges g T d env.transcription).stammer_rate ∧
      stammeredChunksOf g ≤ T := by
  refine ⟨_group_consecutive
      (if (classifyStage env.kerasModel (chunk_energies a.numSamples a.energy).length
            ((chunk_energies a.numSamples a.energy).take 50)).1.1.isEmpty then []
       else _smooth_preds
        (classifyStage env.kerasModel (chunk_energies a.numSamples a.energy).length
          ((chunk_energies a.numSamples a.energy).take 50)).1.1
        (classifyStage env.kerasModel (chunk_energies a.numSamples a.energy).length
          ((chunk_energies a.numSamples a.energy).take 50)).1.2 3)
      ((TARGET_SR : ℕ) : ℚ) ((HOP_LENGTH : ℕ) : ℚ) CHUNK_DURATION
      (if (a.numSamples : ℚ) / ((TARGET_SR : ℕ) : ℚ) = 0 then 0
       else (a.numSamples : ℚ) / ((TARGET_SR : ℕ) : ℚ)),
    (chunk_energies a.numSamples a.energy).length,
    some ((a.numSamples : ℚ) / ((TARGET_SR : ℕ) : ℚ)), ?_, ?_⟩
  · unfold analyze_audio
    rw [henv]
  · set energies := chunk_energies a.numSamples a.energy with hE
    set sample := energies.take 50 with hS
    set bins := (classifyStage env.kerasModel energies.length sample).1.1 with hB
    set confs := (classifyStage env.kerasModel energies.length sample).1.2 with hC
    set smoothed := (if bins.isEmpty then []
      else _smooth_preds bins confs 3) with hSm
    set g := _group_consecutive smoothed ((TARGET_SR : ℕ) : ℚ) ((HOP_LENGTH : ℕ) : ℚ)
      CHUNK_DURATION
      (if (a.numSamples : ℚ) / ((TARGET_SR : ℕ) : ℚ) = 0 then 0
       else (a.numSamples : ℚ) / ((TARGET_SR : ℕ) : ℚ)) with hG
    have h1 := chunks_count_split g
    have h2 : (g.flatMap Range.chunks).length = smoothed.length := by
      rw [hG, group_flatMap, List.length_range]
    have h3 : smoothed.length ≤ bins.length := by
      rw [hSm]
      split_ifs
      · simp
      · rw [smooth_length]
    have h4 : bins.length ≤ energies.length := by
      rw [hB]
      refine classify_bins_le env.kerasModel energies.length sample
        (fun m out hm ho => hmc m energies.length out hm ho) ?_
      rw [hS, List.length_take]
      exact min_le_right _ _
    omega

/-! ## Claim C3 -/

/-- C3: the synthesized stammer_rate equals
round(100 * stammered_chunks / total_chunks, 2) when the effective total
(the provided count, or stammered+fluent when the provided count is
falsy/zero) is positive, else 0.0; the rate of every pipeline report
lies in [0, 100]; and severity is Low iff rate < 30, Moderate iff
30 <= rate <= 65, High iff rate > 65. -/
theorem C3_report_scoring :
    (∀ (ranges : List Range) (total_chunks : ℕ) (dur : Option ℚ) (tr : String),
      ((_generate_report_from_ranges ranges total_chunks dur tr).stammer_rate =
        (if 0 < (if total_chunks ≠ 0 then total_chunks
                 else stammeredChunksOf ranges + fluentChunksOf ranges)
         then round2 (100 * (stammeredChunksOf ranges : ℚ) /
           (((if total_chunks ≠ 0 then total_chunks
              else stammeredChunksOf ranges + fluentChunksOf ranges) : ℕ) : ℚ))
         else 0)) ∧
      ((_generate_report_from_ranges ranges total_chunks dur tr).severity = "Low" ↔
        (_generate_report_from_ranges ranges total_chunks dur tr).stammer_rate < 30) ∧
      ((_generate_report_from_ranges ranges total_chunks dur tr).severity = "Moderate" ↔
        (30 ≤ (_generate_report_from_ranges ranges total_chunks dur tr).stammer_rate ∧
         (_generate_report_from_ranges ranges total_chunks dur tr).stammer_rate ≤ 65)) ∧
      ((_generate_report_from_ranges ranges total_chunks dur tr).severity = "High" ↔
        65 < (_generate_report_from_ranges ranges total_chunks dur tr).stammer_rate)) ∧
    (∀ env : AnalyzeEnv, ModelContract env →
      0 ≤ (analyze_audio env).stammer_rate ∧ (analyze_audio env).stammer_rate ≤ 100) := by
  constructor
  · intro ranges total_chunks dur tr
    have hrate : (_generate_report_from_ranges ranges total_chunks dur tr).stammer_rate =
        round2 (if 0 < (if total_chunks ≠ 0 then total_chunks
            else stammeredChunksOf ranges + fluentChunksOf ranges)
          then ((stammeredChunksOf ranges : ℚ) /
            (((if total_chunks ≠ 0 then total_chunks
               else stammeredChunksOf ranges + fluentChunksOf ranges) : ℕ) : ℚ)) * 100
          else 0) := rfl
    have hsev : (_generate_report_from_ranges ranges total_chunks dur tr).severity =
        (if (_generate_report_from_ranges ranges total_chunks dur tr).stammer_rate < 30
         then "Low"
         else if (_generate_report_from_ranges ranges total_chunks dur tr).stammer_rate ≤ 65
         then "Moderate" else "High") := rfl
    refine ⟨?_, ?_, ?_, ?_⟩
    · rw [hrate]
      by_cases hpos : 0 < (if total_chunks ≠ 0 then total_chunks
          else stammeredChunksOf ranges + fluentChunksOf ranges)
      · rw [if_pos hpos, if_pos hpos]
        congr 1
        ring
      · rw [if_neg hpos, if_neg hpos]
        exact round2_zero
    · rw [hsev]
      split_ifs with h1 h2
      · exact iff_of_true rfl h1
      · exact iff_of_false (by decide) h1
      · exact iff_of_false (by decide) h1
    · rw [hsev]
      split_ifs with h1 h2
      · refine iff_of_false (by decide) ?_
        rintro ⟨h30, -⟩
        exact absurd h1 (not_lt.mpr h30)
      · exact iff_of_true rfl ⟨not_lt.mp h1, h2⟩
      · refine iff_of_false (by decide) ?_
        rintro ⟨-, h65⟩
        exact h2 h65
    · rw [hsev]
      split_ifs with h1 h2
      · refine iff_of_false (by decide) ?_
        intro h
        linarith
      · refine iff_of_false (by decide) ?_
        intro h
        linarith [not_lt.mp h1]
      · exact iff_of_true rfl (not_le.mp h2)
  · intro env hmc
    cases henv : env.loaded with
    | none =>
      have hmin : analyze_audio env = minimalReport env.transcription := by
        unfold analyze_audio
        rw [henv]
      rw [hmin]
      constructor <;> norm_num [minimalReport]
    | some a =>
      obtain ⟨g, T, d, heq, hbd⟩ := analyze_loaded_rate env a henv hmc
      rw [heq]
      exact generate_rate_bounds g T d env.transcription (fun _ => hbd)

/-- C3 witness: the pipeline bound instantiated at the loaded empty
waveform environment (model contract holds vacuously: no model). -/
theorem C3_report_scoring_witness :
    ModelContract envPipe0 ∧
    (0 ≤ (analyze_audio envPipe0).stammer_rate ∧
     (analyze_audio envPipe0).stammer_rate ≤ 100) := by
  have hmc : ModelContract envPipe0 := by
    intro m k out hm ho
    simp [envPipe0] at hm
  exact ⟨hmc, C3_report_scoring.2 envPipe0 hmc⟩

/-! ## Unfolding the loaded-audio path of analyze_audio -/

theorem analyze_loaded_eq (env : AnalyzeEnv) (a : LoadedAudio)
    (henv : env.loaded = some a) :
    analyze_audio env =
      { _generate_report_from_ranges
          (_group_consecutive
            (if (classifyStage env.kerasModel (chunk_energies a.numSamples a.energy).length
                  ((chunk_energies a.numSamples a.energy).take 50)).1.1.isEmpty then []
             else _smooth_preds
              (classifyStage env.kerasModel (chunk_energies a.numSamples a.energy).length
                ((chunk_energies a.numSamples a.energy).take 50)).1.1
              (classifyStage env.kerasModel (chunk_energies a.numSamples a.energy).length
                ((chunk_energies a.numSamples a.energy).take 50)).1.2 3)
            ((TARGET_SR : ℕ) : ℚ) ((HOP_LENGTH : ℕ) : ℚ) CHUNK_DURATION
            (if (a.numSamples : ℚ) / ((TARGET_SR : ℕ) : ℚ) = 0 then 0
             else (a.numSamples : ℚ) / ((TARGET_SR : ℕ) : ℚ)))
          (chunk_energies a.numSamples a.energy).length
          (some ((a.numSamples : ℚ) / ((TARGET_SR : ℕ) : ℚ))) env.transcription
        with raw_output := some (RawOutput.mk
          (some ((a.numSamples : ℚ) / ((TARGET_SR : ℕ) : ℚ)))
          (some (chunk_energies a.numSamples a.energy).length)
          (some ((chunk_energies a.numSamples a.energy).take 50))
          ((classifyStage env.kerasModel (chunk_energies a.numSamples a.energy).length
            ((chunk_energies a.numSamples a.energy).take 50)).2.1)
          ((classifyStage env.kerasModel (chunk_energies a.numSamples a.energy).length
            ((chunk_energies a.numSamples a.energy).take 50)).2.2)) } := by
  unfold analyze_audio
  rw [henv]

/-! ## Claim C9 -/

/-- C9: a loaded waveform with zero samples yields chunk count
max(0, (0 - chunk_size) // hop + 1) = 0 and a report with
stammeredChunks = 0, fluentChunks = 0, severity = "Low" and
stammeredPeriods = ["None"]. -/
theorem C9_empty_waveform :
    ∀ (env : AnalyzeEnv) (a : LoadedAudio),
      env.loaded = some a → a.numSamples = 0 →
      num_chunks a.numSamples = 0 ∧
      (analyze_audio env).stammeredChunks = 0 ∧
      (analyze_audio env).fluentChunks = 0 ∧
      (analyze_audio env).severity = "Low" ∧
      (analyze_audio env).stammeredPeriods = ["None"] := by
  intro env a henv h0
  have hn : num_chunks a.numSamples = 0 := by rw [h0]; decide
  have hE : chunk_energies a.numSamples a.energy = [] := by
    unfold chunk_energies
    rw [hn]
    rfl
  have hcs3 : classifyStage env.kerasModel 0 ([] : List ℚ) = (([], []), none, none) := by
    unfold classifyStage
    rw [if_neg (by simp)]
    rfl
  refine ⟨hn, ?_, ?_, ?_, ?_⟩ <;>
    · rw [analyze_loaded_eq env a henv, hE]
      simp [hcs3, _generate_report_from_ranges, _group_consecutive, stammeredChunksOf,
        fluentChunksOf, stammeredPeriodsOf, round2_zero,
        show (0 : ℚ) < 30 from by norm_num]

/-- C9 witness: the empty waveform environment. -/
theorem C9_empty_waveform_witness :
    (analyze_audio envPipe0).stammeredChunks = 0 ∧
    (analyze_audio envPipe0).severity = "Low" ∧
    (analyze_audio envPipe0).stammeredPeriods = ["None"] := by
  have h := C9_empty_waveform envPipe0 ⟨0, fun _ => 0⟩ rfl rfl
  exact ⟨h.2.1, h.2.2.2.1, h.2.2.2.2⟩

/-! ## Claim C7 (corrected) -/

/-- C7 counterexample: the degraded minimal report has severity "Low"
but a single-element recommendations list, not the two-element "Low"
table entry — so the claim "recommendations equal the severity-keyed
table on every path, including the degraded minimal report" is false. -/
theorem C7_minimal_report_counterexample :
    (analyze_audio envMinimal).severity = "Low" ∧
    (analyze_audio envMinimal).recommendations ≠
      recs_map (analyze_audio envMinimal).severity := by
  constructor
  · rfl
  · decide

/-- C7 (amended): every full-pipeline report has recommendations equal
to the fixed severity-keyed table entry; the degraded minimal report
instead carries the single-element list
["Continue practicing fluent speech patterns."] with severity "Low". -/
theorem C7_recommendations :
    (∀ (env : AnalyzeEnv) (a : LoadedAudio), env.loaded = some a →
      (analyze_audio env).recommendations = recs_map (analyze_audio env).severity) ∧
    (∀ env : AnalyzeEnv, env.loaded = none →
      (analyze_audio env).severity = "Low" ∧
      (analyze_audio env).recommendations =
        ["Continue practicing fluent speech patterns."]) := by
  constructor
  · intro env a henv
    rw [analyze_loaded_eq env a henv]
    rfl
  · intro env henv
    have hmin : analyze_audio env = minimalReport env.transcription := by
      unfold analyze_audio
      rw [henv]
    rw [hmin]
    exact ⟨rfl, rfl⟩

/-- C7 witness: the pipeline path at the loaded empty waveform, where
severity is "Low" and the table entry is the two-element Low list. -/
theorem C7_recommendations_witness :
    (analyze_audio envPipe0).recommendations =
      ["Continue practicing fluent speech patterns.",
       "Engage in regular reading aloud exercises."] := by
  have h := C7_recommendations.1 envPipe0 ⟨0, fun _ => 0⟩ rfl
  rw [h]
  with_unfolding_all decide

/-! ## Claim C8 (corrected) -/

/-- C8 counterexample: the degraded minimal report carries no
raw_output mapping at all, refuting "every Report returned by analyze
contains a raw_output diagnostic mapping". -/
theorem C8_degraded_no_raw_output :
    (analyze_audio envMinimal).raw_output = none := rfl

/-- C8 (amended): every report of the full pipeline (audio loaded)
carries raw_output with the duration, the chunk count, and the first-50
capped energy sample; model_conf_mean is present whenever the model
path ran, and heuristic_threshold records the 25th percentile whenever
the heuristic ran on a non-empty sample.  The degraded minimal report
has no raw_output (see the counterexample). -/
theorem C8_raw_output_contract :
    ∀ (env : AnalyzeEnv) (a : LoadedAudio), env.loaded = some a →
      (analyze_audio env).raw_output = some
        ⟨some ((a.numSamples : ℚ) / ((TARGET_SR : ℕ) : ℚ)),
         some (chunk_energies a.numSamples a.energy).length,
         some ((chunk_energies a.numSamples a.energy).take 50),
         (classifyStage env.kerasModel (chunk_energies a.numSamples a.energy).length
           ((chunk_energies a.numSamples a.energy).take 50)).2.1,
         (classifyStage env.kerasModel (chunk_energies a.numSamples a.energy).length
           ((chunk_energies a.numSamples a.energy).take 50)).2.2⟩ ∧
      ((chunk_energies a.numSamples a.energy).take 50).length ≤ 50 ∧
      ((env.kerasModel.isSome ∧ 0 < (chunk_energies a.numSamples a.energy).length) →
        (classifyStage env.kerasModel (chunk_energies a.numSamples a.energy).length
          ((chunk_energies a.numSamples a.energy).take 50)).2.1.isSome) ∧
      (¬(env.kerasModel.isSome ∧ 0 < (chunk_energies a.numSamples a.energy).length) →
        (chunk_energies a.numSamples a.energy).take 50 ≠ [] →
        (classifyStage env.kerasModel (chunk_energies a.numSamples a.energy).length
          ((chunk_energies a.numSamples a.energy).take 50)).2.2 =
          some (percentile25 ((chunk_energies a.numSamples a.energy).take 50))) := by
  intro env a henv
  refine ⟨?_, ?_, ?_, ?_⟩
  · rw [analyze_loaded_eq env a henv]
  · rw [List.length_take]
    exact min_le_left _ _
  · intro hc
    unfold classifyStage
    rw [if_pos hc]
    rfl
  · intro hc hs
    unfold classifyStage
    rw [if_neg hc, if_neg (by simpa [List.isEmpty_iff] using hs)]

/-- C8 witness: the loaded empty-waveform environment, where the
attached raw_output holds duration 0, chunk count 0 and the empty
sample. -/
theorem C8_raw_output_contract_witness :
    (analyze_audio envPipe0).raw_output =
      some ⟨some 0, some 0, some [], none, none⟩ := by
  have h := (C8_raw_output_contract envPipe0 ⟨0, fun _ => 0⟩ rfl).1
  rw [h]
  with_unfolding_all decide

/-! ## Claim C2 (corrected) -/

/-- C2 counterexample: a trained model is present, the feature batch is
non-empty (one chunk, energy 5), and the model invocation fails; the
output degrades to empty, but the heuristic is NOT used: no
heuristic_threshold key is recorded (the claim would require the
heuristic labels/threshold for the one chunk) and zero chunks are
classified. -/
theorem C2_model_failure_no_heuristic :
    (analyze_audio envC2x).raw_output =
      some ⟨some 1, some 1, some [5], some none, none⟩ ∧
    (analyze_audio envC2x).stammeredChunks + (analyze_audio envC2x).fluentChunks = 0 := by
  with_unfolding_all decide

/-- C2 (amended): the energy heuristic runs iff no model is available
or the extracted feature batch is empty; on a non-empty (capped) energy
sample it produces threshold t = 25th percentile of the sample, label 1
iff energy < t, confidence |energy - t|, recording t; when a model is
present and the batch non-empty, a failing model invocation leaves the
output empty without falling back to the heuristic. -/
theorem C2_heuristic_trigger :
    ∀ (km : Option (ℕ → Option (List ℚ))) (energies : List ℚ),
      ((km = none ∨ energies = []) → energies.take 50 ≠ [] →
        classifyStage km energies.length (energies.take 50) =
          (((energies.take 50).map
              (fun e => if e < percentile25 (energies.take 50) then 1 else 0),
            (energies.take 50).map (fun e => |e - percentile25 (energies.take 50)|)),
           none, some (percentile25 (energies.take 50)))) ∧
      (∀ m, km = some m → energies ≠ [] →
        (classifyStage km energies.length (energies.take 50)).2.2 = none ∧
        (m energies.length = none →
          (classifyStage km energies.length (energies.take 50)).1 = ([], []))) := by
  intro km energies
  constructor
  · intro hkm hs
    have hcond : ¬(km.isSome ∧ 0 < energies.length) := by
      rcases hkm with h | h
      · subst h
        simp
      · subst h
        simp
    unfold classifyStage
    rw [if_neg hcond, if_neg (by simpa [List.isEmpty_iff] using hs)]
  · intro m hm hne
    have hcond : km.isSome ∧ 0 < energies.length := by
      subst hm
      exact ⟨rfl, List.length_pos.mpr hne⟩
    constructor
    · unfold classifyStage
      rw [if_pos hcond]
    · intro hout
      unfold classifyStage
      rw [if_pos hcond]
      show _predict_from_model energies.length km (7/10) = ([], [])
      subst hm
      unfold _predict_from_model
      dsimp only
      rw [if_neg (by simpa [List.length_eq_zero] using hne), hout]

/-- C2 witness: no model, energies [2, 4]: threshold 5/2, labels
[1, 0], confidences [1/2, 3/2], threshold recorded. -/
theorem C2_heuristic_trigger_witness :
    classifyStage none ([2, 4] : List ℚ).length (([2, 4] : List ℚ).take 50) =
      (([1, 0], [1/2, 3/2]), none, some (5/2)) := by
  have h := (C2_heuristic_trigger none [2, 4]).1 (Or.inl rfl) (by decide)
  rw [h]
  with_unfolding_all decide

/-! ## Claim C1 (code bug: heuristic reads the capped debug sample) -/

/-- C1 failing input: 22400 samples at 16 kHz yield 51 full chunks, but
on the heuristic path (no model) the classifier reads
raw_output["chunk_energies_sample"], the debug sample capped to the
first 50 energies, so only 50 prediction pairs are produced: the
report accounts 50 classified chunks against num_chunks = 51,
contradicting the one-pair-per-chunk contract. -/
theorem C1_heuristic_sample_cap :
    (chunk_energies 22400 (fun _ => 0)).length = 51 ∧
    (analyze_audio envC1).raw_output =
      some ⟨some (7/5), some 51, some (List.replicate 50 0), none, some 0⟩ ∧
    (analyze_audio envC1).stammeredChunks + (analyze_audio envC1).fluentChunks = 50 := by
  with_unfolding_all decide

end VerboFix
